import Mathlib

/-!
Verification development for the LinguaLint repository.

We give a shallow embedding of the two algorithmic components of the
repository — the linguistic feature extractor (`src/nlp_processor.py`) and the
responsibility scoring engine (`src/responsibility_analyzer.py`) — and prove
or refute the specification claims about them.

Modelling conventions:
* Python `float` is modelled by `ℚ`; all the arithmetic in the scored
  quantities is a composition of additions, multiplications and divisions of
  decimal literals, which `ℚ` reproduces exactly.
* Python exceptions (`ZeroDivisionError`, `IndexError`) are modelled by
  `Option`: `none` means the corresponding Python call raises.
* Python strings are Lean `String`s; the case-insensitive substring test
  `a in b`, `str.strip()`, `str.split()` and `str.lower()` are implemented
  below on the underlying character lists.
* Python `list(set(xs))` has unspecified order; we model it as
  first-occurrence deduplication (`dedupFirst`).  Every claim that touches
  such a set only depends on membership and duplicate-freeness, which are
  order independent.
-/

/-! ### Python string primitives -/

/-- `str.lower()` (ASCII case folding, which covers every literal in the
repository's vocabularies). -/
def pyLower (s : String) : String := String.mk (s.toList.map Char.toLower)

/-- Whitespace test used by `str.strip()` / `str.split()`. -/
def isWS (c : Char) : Bool := c.isWhitespace

/-- `str.strip()`: drop leading and trailing whitespace. -/
def pyStrip (s : String) : String :=
  String.mk (((s.toList.dropWhile isWS).reverse.dropWhile isWS).reverse)

/-- Helper for `pySplit`: accumulates the current word in reverse. -/
def splitWSAux : List Char → List Char → List String
  | [], cur => if cur.isEmpty then [] else [String.mk cur.reverse]
  | c :: rest, cur =>
    if isWS c then
      if cur.isEmpty then splitWSAux rest []
      else String.mk cur.reverse :: splitWSAux rest []
    else splitWSAux rest (c :: cur)

/-- `str.split()` with no argument: split on whitespace runs, no empty parts. -/
def pySplit (s : String) : List String := splitWSAux s.toList []

/-- Char-list prefix test (needle, haystack). -/
def isPrefixZ : List Char → List Char → Bool
  | [], _ => true
  | _ :: _, [] => false
  | a :: as, b :: bs => a == b && isPrefixZ as bs

/-- Char-list substring test (needle, haystack): Python `needle in haystack`. -/
def subList (needle : List Char) : List Char → Bool
  | [] => needle.isEmpty
  | b :: bs => isPrefixZ needle (b :: bs) || subList needle bs

/-- Python `needle in haystack` on strings. -/
def strIn (needle haystack : String) : Bool := subList needle.toList haystack.toList

/-- `' '.join(xs)`. -/
def joinSpace : List String → String
  | [] => ""
  | [x] => x
  | x :: y :: xs => x ++ " " ++ joinSpace (y :: xs)

/-- First-occurrence deduplication; our model of Python `list(set(xs))`
(and of insertion into a `dict` keyed by the string). -/
def dedupFirst (l : List String) : List String :=
  l.foldl (fun acc s => if s ∈ acc then acc else acc ++ [s]) []

/-- `s[0].isupper()` for a non-empty Python string (every call site in the
subject/concept extractors receives non-empty annotator spans; the one call
site that can receive `""` — `_extract_wiki_candidates` — is modelled
separately with its `IndexError`). -/
def firstUpper (s : String) : Bool :=
  match s.toList with
  | [] => false
  | c :: _ => c.isUpper

/-! ### Python `round(x, 3)` -/

/-- Round half to even on `ℚ` (Python's `round` tie-breaking). -/
def rhe (x : ℚ) : ℤ :=
  let f := ⌊x⌋
  let frac := x - f
  if frac < 1/2 then f
  else if 1/2 < frac then f + 1
  else if f % 2 = 0 then f else f + 1

/-- Python `round(x, 3)`. -/
def round3 (x : ℚ) : ℚ := (rhe (1000 * x) : ℚ) / 1000

/-! ### The responsibility engine (`src/responsibility_analyzer.py`) -/

/-- A 3-vector of floats, as used for warm/cold sentiment vectors. -/
abbrev Vec3 := ℚ × ℚ × ℚ

/-- One entry of `_source.sentences` as consumed by
`extract_entities_and_events`. -/
structure SentenceRec where
  sentence : String
  warm_vector : Vec3
  cold_vector : Vec3
deriving DecidableEq, Repr

/-- The mutable per-entity statistics of `LinguaLintEntity`
(`mention_count`, `warm_vector_sum`, `cold_vector_sum`); the `name` is kept
as the key alongside. -/
structure EntityAcc where
  mention_count : ℕ
  warm_vector_sum : Vec3
  cold_vector_sum : Vec3
deriving DecidableEq, Repr

/-- Fresh accumulator (`LinguaLintEntity.__post_init__`). -/
def EntityAcc.init : EntityAcc := ⟨0, (0, 0, 0), (0, 0, 0)⟩

/-- `entity.lower() in sentence.lower()` — the mention test of
`extract_entities_and_events`. -/
def mentionedB (entity sentence : String) : Bool :=
  strIn (pyLower entity) (pyLower sentence)

/-- The list comprehension `mentioned_entities` for one sentence. -/
def mentionedEntities (subjects : List String) (sentence : String) : List String :=
  subjects.filter (fun e => mentionedB e sentence)

/-- The per-mention update: `mention_count += 1` and element-wise vector
accumulation. -/
def EntityAcc.bump (a : EntityAcc) (s : SentenceRec) : EntityAcc :=
  ⟨a.mention_count + 1, a.warm_vector_sum + s.warm_vector,
    a.cold_vector_sum + s.cold_vector⟩

/-- Processing of one sentence inside `extract_entities_and_events`: every
entity occurring in `mentioned_entities` is bumped (one bump per occurrence
in the subjects list, exactly as the Python loop does). -/
def processSentence (subjects : List String) (acc : String → EntityAcc)
    (s : SentenceRec) : String → EntityAcc :=
  (mentionedEntities subjects s.sentence).foldl
    (fun a name => Function.update a name ((a name).bump s)) acc

/-- The whole sentence loop of `extract_entities_and_events`, as a map from
entity name to its accumulated statistics. -/
def extractEntities (subjects : List String) (sentences : List SentenceRec) :
    String → EntityAcc :=
  sentences.foldl (processSentence subjects) (fun _ => EntityAcc.init)

/-- The `self.entities` dict after `extract_entities_and_events`: keys in
insertion order (first occurrence of each subject), each mapped to its
accumulated statistics. -/
def engineEntities (subjects : List String) (sentences : List SentenceRec) :
    List (String × EntityAcc) :=
  (dedupFirst subjects).map (fun n => (n, extractEntities subjects sentences n))

/-- `calculate_intention_score`. -/
def calculateIntentionScore (e : EntityAcc) : ℚ :=
  if e.mention_count = 0 then 0
  else
    let m : ℚ := e.mention_count
    let avg : Vec3 := (e.warm_vector_sum.1 / m, e.warm_vector_sum.2.1 / m,
      e.warm_vector_sum.2.2 / m)
    max ((avg.1 * (4/10) + avg.2.1 * (4/10) + avg.2.2 * (2/10)) * 100) (1/10)

/-- `calculate_negligence_score`. -/
def calculateNegligenceScore (e : EntityAcc) : ℚ :=
  if e.mention_count = 0 then 1
  else
    let m : ℚ := e.mention_count
    let avg : Vec3 := (e.cold_vector_sum.1 / m, e.cold_vector_sum.2.1 / m,
      e.cold_vector_sum.2.2 / m)
    max ((avg.1 * (5/10) + avg.2.1 * (3/10) + avg.2.2 * (2/10)) * 100) (1/10)

/-- The risk classification chain of `calculate_responsibility_ratio`. -/
def riskLevel (r : ℚ) : String :=
  if r > 10 then "Very Low"
  else if r > 5 then "Low"
  else if r > 2 then "Moderate"
  else if r > 1 then "High"
  else "Very High"

/-- One entry of `entity_assessments` (field `ratioValue` is the dict key
`"responsibility_ratio"`). -/
structure Assessment where
  entity : String
  mentions : ℕ
  intention_score : ℚ
  negligence_score : ℚ
  ratioValue : ℚ
  risk_level : String
  avg_warm_vector : Vec3
  avg_cold_vector : Vec3
deriving DecidableEq, Repr

/-- `calculate_responsibility_ratio` for an entity that is present in
`self.entities`.  The final dict comprehension divides each vector-sum
component by `entity.mention_count`; when the mention count is `0` Python
raises `ZeroDivisionError`, modelled as `none`. -/
def calculateResponsibilityRatio (name : String) (e : EntityAcc) :
    Option Assessment :=
  let intention := calculateIntentionScore e
  let negligence := calculateNegligenceScore e
  let r := intention / negligence
  if e.mention_count = 0 then none
  else
    let m : ℚ := e.mention_count
    some
      { entity := name
        mentions := e.mention_count
        intention_score := round3 intention
        negligence_score := round3 negligence
        ratioValue := round3 r
        risk_level := riskLevel r
        avg_warm_vector := (round3 (e.warm_vector_sum.1 / m),
          round3 (e.warm_vector_sum.2.1 / m), round3 (e.warm_vector_sum.2.2 / m))
        avg_cold_vector := (round3 (e.cold_vector_sum.1 / m),
          round3 (e.cold_vector_sum.2.1 / m), round3 (e.cold_vector_sum.2.2 / m)) }

/-- The assessment loop of `generate_responsibility_report`.  A raised
`ZeroDivisionError` aborts the whole report (`none`).  (The source's
`if "error" not in assessment` filter is unreachable here because every name
iterated over is a key of `self.entities`.) -/
def assessAll : List (String × EntityAcc) → Option (List Assessment)
  | [] => some []
  | (n, e) :: rest =>
    match calculateResponsibilityRatio n e with
    | none => none
    | some a =>
      match assessAll rest with
      | none => none
      | some l => some (a :: l)

/-- Stable insert used to model Python's stable `list.sort(key=ratio,
reverse=True)`: an element is placed before the first element whose key is
not larger, so earlier elements win ties. -/
def insertDesc (a : Assessment) : List Assessment → List Assessment
  | [] => [a]
  | b :: bs =>
    if b.ratioValue ≤ a.ratioValue then a :: b :: bs else b :: insertDesc a bs

/-- Stable sort by `responsibility_ratio` descending (Python's `list.sort`
with `reverse=True` is stable; any stable descending sort computes the same
list, and insertion sort is the simplest one). -/
def stableSortDesc : List Assessment → List Assessment
  | [] => []
  | a :: as => insertDesc a (stableSortDesc as)

/-- The report dict of `generate_responsibility_report`. -/
structure Report where
  total_entities : ℕ
  total_events : ℕ
  entity_assessments : List Assessment
deriving DecidableEq, Repr

/-- `generate_responsibility_report`: assess every entity in dict order,
then sort by ratio descending.  `none` models the `ZeroDivisionError`
escaping the method. -/
def generateResponsibilityReport (entities : List (String × EntityAcc))
    (numEvents : ℕ) : Option Report :=
  match assessAll entities with
  | none => none
  | some l => some ⟨entities.length, numEvents, stableSortDesc l⟩

/-- The `analyze_responsibility` pipeline restricted to the fields the
claims are about: build the entity accumulators from the report's subjects
and sentences, then generate the report. -/
def analyzeResponsibility (subjects : List String)
    (sentences : List SentenceRec) : Option Report :=
  generateResponsibilityReport (engineEntities subjects sentences)
    sentences.length

/-! ### The NLP processor (`src/nlp_processor.py`) -/

/-- Wierzbicka's 65 semantic primes, exactly as listed in
`ModernNLPProcessor.__init__`. -/
def semanticPrimes : List String :=
  ["I", "YOU", "SOMEONE", "SOMETHING", "PEOPLE", "BODY",
   "KIND", "PART",
   "THIS", "THE SAME", "OTHER", "ELSE",
   "ONE", "TWO", "SOME", "ALL", "MUCH", "MANY", "LITTLE", "FEW",
   "GOOD", "BAD",
   "BIG", "SMALL",
   "THINK", "KNOW", "WANT", "DON\x27T WANT", "FEEL", "SEE", "HEAR",
   "SAY", "WORDS", "TRUE",
   "DO", "HAPPEN", "MOVE",
   "BE", "THERE IS", "HAVE", "BE SOMEONE/SOMETHING",
   "LIVE", "DIE",
   "WHEN", "NOW", "BEFORE", "AFTER", "A LONG TIME", "A SHORT TIME",
   "FOR SOME TIME", "MOMENT",
   "WHERE", "HERE", "ABOVE", "BELOW", "FAR", "NEAR", "SIDE", "INSIDE",
   "TOUCH",
   "NOT", "MAYBE", "CAN", "BECAUSE", "IF",
   "VERY", "MORE",
   "LIKE"]

/-- `self.prime_words`: each prime lowercased and split into words. -/
def primeWords : List (List String) := semanticPrimes.map (fun p => pySplit (pyLower p))

/-- `self.prime_singles`: the words of the single-word primes. -/
def primeSingles : List String :=
  ((primeWords.filter (fun p => p.length = 1)).map id).flatten

/-- `self.prime_phrases` (keys only — the dict values are never used by the
matcher): space-joined multi-word primes. -/
def primePhrases : List String :=
  (primeWords.filter (fun p => 1 < p.length)).map joinSpace

/-- `' '.join(token.text.lower() for token in tokens[i:i+l])`. -/
def phraseAt (texts : List String) (i l : ℕ) : String :=
  joinSpace (((texts.drop i).take l).map pyLower)

/-- The candidate phrase lengths tried at position `i`:
`range(min(4, len(tokens) - i), 0, -1)`, i.e. `[min 4 (n-i), …, 1]`. -/
def tryLens (n i : ℕ) : List ℕ :=
  ((List.range (min 4 (n - i))).reverse).map (· + 1)

/-- The inner `for phrase_len in …: if phrase in self.prime_phrases: break`
loop: the first (longest) candidate length whose phrase is a key of
`prime_phrases`. -/
def multiMatch (texts : List String) (i : ℕ) : Option ℕ :=
  (tryLens texts.length i).find? (fun l => primePhrases.contains (phraseAt texts i l))

/-- The scan loop of `_find_semantic_primes`, instrumented with the length
of each matched span (first component of the pair after the position); the
fuel argument makes the recursion structural and is always called with
enough fuel (`texts.length` suffices because every step advances `i` by at
least one). -/
def findPrimesAux (texts : List String) : ℕ → ℕ → List (ℕ × ℕ × String)
  | 0, _ => []
  | fuel + 1, i =>
    if h : i < texts.length then
      match multiMatch texts i with
      | some l => (i, l, phraseAt texts i l) :: findPrimesAux texts fuel (i + l)
      | none =>
        let w := pyLower (texts.get ⟨i, h⟩)
        if primeSingles.contains w
        then (i, 1, w) :: findPrimesAux texts fuel (i + 1)
        else findPrimesAux texts fuel (i + 1)
    else []

/-- `_find_semantic_primes`: the `(position, matched text)` pairs. -/
def findSemanticPrimes (texts : List String) : List (ℕ × String) :=
  (findPrimesAux texts texts.length 0).map (fun m => (m.1, m.2.2))

/-- A token as delivered by the external annotator: surface text, coarse
part-of-speech tag, alphabetic flag. -/
structure AnnToken where
  text : String
  pos : String
  is_alpha : Bool
deriving DecidableEq, Repr

/-- A named-entity span (surface text and type label). -/
structure AnnEnt where
  text : String
  label : String
deriving DecidableEq, Repr

/-- One annotated sentence: tokens, named-entity spans, noun-chunk texts and
the raw sentence text. -/
structure AnnSentence where
  tokens : List AnnToken
  ents : List AnnEnt
  noun_chunks : List String
  text : String
deriving DecidableEq, Repr

/-- The NER label allow-list of `_extract_subjects`. -/
def entLabels : List String :=
  ["PERSON", "ORG", "GPE", "PRODUCT", "EVENT", "LAW", "MONEY"]

/-- `_extract_subjects`: NER spans with allowed labels, then capitalized
proper-noun tokens of length > 2 not already covered by an entity span, then
capitalized noun chunks of at most 3 words not already present; finally
`list(set(...))`. -/
def extractSubjects (s : AnnSentence) : List String :=
  let entTexts := s.ents.map AnnEnt.text
  let subs1 := (s.ents.filter (fun e => entLabels.contains e.label)).map AnnEnt.text
  let subs2 := subs1 ++ (s.tokens.filter (fun t =>
      t.pos == "PROPN" && firstUpper t.text && decide (2 < t.text.length) &&
      !(entTexts.contains t.text))).map AnnToken.text
  let subs3 := s.noun_chunks.foldl (fun acc c =>
      if firstUpper c && decide ((pySplit c).length ≤ 3) && !(acc.contains c)
      then acc ++ [c] else acc) subs2
  dedupFirst subs3

/-- `_extract_concept_window`: the 3-token window on each side of the prime
position, excluding the prime position itself and punctuation/whitespace
tokens. -/
def extractConceptWindow (tokens : List AnnToken) (primePos : ℕ) : String :=
  let start := primePos - 3
  let stop := min tokens.length (primePos + 3 + 1)
  let idxs := (List.range (stop - start)).map (· + start)
  let windowTokens := idxs.filterMap (fun i =>
    if i ≠ primePos then
      match tokens.get? i with
      | some t => if t.pos ≠ "PUNCT" && t.pos ≠ "SPACE" then some t.text else none
      | none => none
    else none)
  pyStrip (joinSpace windowTokens)

/-- The relational subset of `_is_relational_prime`. -/
def relationalPrimes : List String :=
  ["because", "if", "when", "where", "do", "happen", "move",
   "say", "think", "feel", "see", "hear", "like", "can"]

/-- `_is_relational_prime`. -/
def isRelationalPrime (t : String) : Bool := relationalPrimes.contains t

/-- `_get_phrase_context`: up to 2 tokens each side of token `i`, excluding
punctuation/whitespace/determiners and 1-character tokens.  (The source
indexes the sentence with the document-level token index; we use the
sentence-level index, which coincides for the documents our claims
evaluate.) -/
def getPhraseContext (tokens : List AnnToken) (i : ℕ) : String :=
  let start := i - 2
  let stop := min tokens.length (i + 3)
  let idxs := (List.range (stop - start)).map (· + start)
  let phraseTokens := idxs.filterMap (fun j =>
    match tokens.get? j with
    | some t =>
      if t.pos ≠ "PUNCT" && t.pos ≠ "SPACE" && t.pos ≠ "DET" &&
          decide (1 < t.text.length)
      then some t.text else none
    | none => none)
  pyStrip (joinSpace phraseTokens)

/-- `_extract_concepts_and_relations`: prime-anchored windows (routed to
relations or concepts), then multi-word lowercase noun chunks, then
verb/adjective context phrases. -/
def extractConceptsAndRelations (s : AnnSentence) :
    List String × List String :=
  let texts := s.tokens.map AnnToken.text
  let primePositions := findSemanticPrimes texts
  let step1 := primePositions.foldl
    (fun (acc : List String × List String) pm =>
      let w := extractConceptWindow s.tokens pm.1
      if isRelationalPrime pm.2 then (acc.1, acc.2 ++ [w])
      else (acc.1 ++ [w], acc.2)) ([], [])
  let concepts1 := s.noun_chunks.foldl (fun acc chunk =>
      let ct := pyStrip chunk
      if decide (1 < (pySplit ct).length) && !(firstUpper ct) &&
          !(acc.contains ct) && decide (3 < ct.length)
      then acc ++ [ct] else acc) step1.1
  let concepts2 := s.tokens.enum.foldl (fun acc ti =>
      if (ti.2.pos == "VERB" || ti.2.pos == "ADJ") && !(firstUpper ti.2.text) then
        let phrase := getPhraseContext s.tokens ti.1
        if phrase ≠ "" && decide (3 < phrase.length) && !(firstUpper phrase)
        then acc ++ [phrase] else acc
      else acc) concepts1
  (concepts2, step1.2)

/-- `_extract_phenomena`: strip, keep the strings of trimmed length > 2,
deduplicate. -/
def extractPhenomena (subjects concepts relations : List String) :
    List String :=
  let phenomena := subjects ++ concepts ++ relations
  dedupFirst ((phenomena.filter (fun p => p ≠ "" && decide (2 < (pyStrip p).length))).map pyStrip)

/-- The priority-substring table of `_extract_wiki_candidates`. -/
def wikiPriorityTerms : List String :=
  ["company", "corporation", "inc", "llc", "pandemic", "covid", "crisis",
   "technology", "system", "market", "industry", "regulation", "government",
   "economic", "financial", "business", "operations", "revenue", "debt"]

/-- The qualification test of `_extract_wiki_candidates`; Python evaluates
`entity[0].isupper()` first, which raises `IndexError` on the empty string
(`none`). -/
def wikiQualifies (entity : String) : Option Bool :=
  match entity.toList with
  | [] => none
  | c :: _ =>
    some (c.isUpper ||
      wikiPriorityTerms.any (fun t => strIn t (pyLower entity)) ||
      decide (2 ≤ (pySplit entity).length))

/-- The candidate loop of `_extract_wiki_candidates`; a raised `IndexError`
aborts the call. -/
def wikiCandidatesAux : List String → Option (List String)
  | [] => some []
  | e :: es =>
    match wikiQualifies e with
    | none => none
    | some b =>
      match wikiCandidatesAux es with
      | none => none
      | some rest => some (if b then e :: rest else rest)

/-- `_extract_wiki_candidates`: qualifying entities, deduplicated and
truncated to 20. -/
def extractWikiCandidates (entities : List String) : Option (List String) :=
  match wikiCandidatesAux entities with
  | none => none
  | some candidates => some ((dedupFirst candidates).take 20)

/-- The keyword tables of `_calculate_sentiment_vector`. -/
def positiveWords : List String :=
  ["good", "strong", "growth", "increase", "positive", "benefit", "advantage"]

/-- Negative keyword table. -/
def negativeWords : List String :=
  ["risk", "adverse", "decrease", "decline", "negative", "loss", "threat",
   "danger"]

/-- Modal-like table of the warm vector. -/
def modalWords : List String := ["will", "can", "may", "could"]

/-- Risk-modal table of the cold vector. -/
def riskModalWords : List String := ["risk", "may", "could", "might"]

/-- `_calculate_sentiment_vector`. -/
def calculateSentimentVector (tokens : List AnnToken) (vectorType : String) :
    Vec3 :=
  let words := (tokens.filter AnnToken.is_alpha).map (fun t => pyLower t.text)
  let posCount : ℕ := (words.filter (fun w => positiveWords.contains w)).length
  let negCount : ℕ := (words.filter (fun w => negativeWords.contains w)).length
  let totalWords : ℕ := words.length
  if vectorType == "warm" then
    ((posCount : ℚ) / ((max totalWords 1 : ℕ) : ℚ),
     (((words.filter (fun w => modalWords.contains w)).length : ℕ) : ℚ) /
       ((max totalWords 1 : ℕ) : ℚ),
     (posCount : ℚ) / ((max (posCount + negCount) 1 : ℕ) : ℚ))
  else
    ((negCount : ℚ) / ((max totalWords 1 : ℕ) : ℚ),
     (((words.filter (fun w => riskModalWords.contains w)).length : ℕ) : ℚ) /
       ((max totalWords 1 : ℕ) : ℚ),
     (negCount : ℚ) / ((max (posCount + negCount) 1 : ℕ) : ℚ))

/-- One entry of the `sentences` array produced by `process_text`. -/
structure SentenceObj where
  sentence : String
  warm_vector : Vec3
  cold_vector : Vec3
deriving DecidableEq, Repr

/-- The fields of the `_source` payload of `process_text` that the claims
are about. -/
structure ExtractionResult where
  sentences : List SentenceObj
  subjects : List String
  phen : List String
  wiki_blues : List String
deriving DecidableEq, Repr

/-- The document-wide `all_subjects` list of `process_text`. -/
def docAllSubjects (sents : List AnnSentence) : List String :=
  (sents.map extractSubjects).flatten

/-- The document-wide `all_concepts` list of `process_text`. -/
def docAllConcepts (sents : List AnnSentence) : List String :=
  (sents.map (fun s => (extractConceptsAndRelations s).1)).flatten

/-- The document-wide `all_relations` list of `process_text`. -/
def docAllRelations (sents : List AnnSentence) : List String :=
  (sents.map (fun s => (extractConceptsAndRelations s).2)).flatten

/-- The `subjects` field: `list(set(all_subjects))`. -/
def docSubjects (sents : List AnnSentence) : List String :=
  dedupFirst (docAllSubjects sents)

/-- The `phen` field. -/
def docPhen (sents : List AnnSentence) : List String :=
  extractPhenomena (docAllSubjects sents) (docAllConcepts sents)
    (docAllRelations sents)

/-- `process_text` (Wikipedia enrichment disabled), restricted to the
claimed fields; `none` models an exception escaping the call. -/
def processText (sents : List AnnSentence) : Option ExtractionResult :=
  let sentenceObjs := sents.map (fun s =>
    SentenceObj.mk (pyStrip s.text) (calculateSentimentVector s.tokens "warm")
      (calculateSentimentVector s.tokens "cold"))
  match extractWikiCandidates (docAllSubjects sents ++ docAllConcepts sents) with
  | none => none
  | some wb => some ⟨sentenceObjs, docSubjects sents, docPhen sents, wb⟩

/-! ### Concrete inputs used by the claims -/

/-- The entity of the spec's worked example: "Acme", mentioned in 2
sentences, warm sums `[0.4, 0.2, 0.6]`, cold sums `[0.1, 0.0, 0.2]`
(decimal literals written as exact fractions). -/
def acmeAcc : EntityAcc := ⟨2, ((4/10), (2/10), (6/10)), ((1/10), 0, (2/10))⟩

/-- A loaded document whose single sentence does not mention the subject
"Acme", leaving its accumulator at zero mentions. -/
def c1Sentences : List SentenceRec :=
  [⟨"The board met on Tuesday.", (0, 0, 0), (0, 0, 0)⟩]

/-! ### Claims C1–C4, C6 -/

/-- `rhe` is the identity on integers. -/
theorem rhe_intCast (n : ℤ) : rhe (n : ℚ) = n := by
  unfold rhe
  rw [Int.floor_intCast]
  norm_num

/-- Evaluation rule for `round3` when `1000·x` is an integer (every rounding
in the worked example is exact). -/
theorem round3_eval (x : ℚ) (n : ℤ) (h : 1000 * x = (n : ℚ)) :
    round3 x = (n : ℚ) / 1000 := by
  unfold round3
  rw [h, rhe_intCast]

/-- `round3` is the identity on rationals whose thousandfold is integral. -/
theorem round3_exact (x : ℚ) (n : ℤ) (h : 1000 * x = (n : ℚ)) :
    round3 x = x := by
  rw [round3_eval x n h, ← h]
  field_simp

/-- **C4.** Risk tier assignment is a total function on ratio values that
partitions `(0, ∞)` into exactly the five ordered bins: `>10 → "Very Low"`,
`(5,10] → "Low"`, `(2,5] → "Moderate"`, `(1,2] → "High"`, `(0,1] → "Very
High"`; each positive ratio satisfies exactly one of the five
characterizations. -/
theorem claim4_risk_tier_partition : ∀ r : ℚ, 0 < r →
    (riskLevel r = "Very Low" ↔ 10 < r) ∧
    (riskLevel r = "Low" ↔ 5 < r ∧ r ≤ 10) ∧
    (riskLevel r = "Moderate" ↔ 2 < r ∧ r ≤ 5) ∧
    (riskLevel r = "High" ↔ 1 < r ∧ r ≤ 2) ∧
    (riskLevel r = "Very High" ↔ 0 < r ∧ r ≤ 1) := by
  intro r hr
  unfold riskLevel
  split_ifs with h1 h2 h3 h4 <;>
    refine ⟨?_, ?_, ?_, ?_, ?_⟩ <;> constructor <;> intro h <;>
    simp_all <;> linarith

/-- Witness for C4 at the concrete ratio 3. -/
theorem claim4_witness :
    (0 : ℚ) < 3 ∧ (riskLevel 3 = "Moderate" ↔ 2 < (3 : ℚ) ∧ (3 : ℚ) ≤ 5) :=
  ⟨by norm_num, (claim4_risk_tier_partition 3 (by norm_num)).2.2.1⟩

/-- **C3.** For entities with positive mention count, intention is
`max(0.1, 100·(0.4·w₀/m + 0.4·w₁/m + 0.2·w₂/m))`, negligence is
`max(0.1, 100·(0.5·c₀/m + 0.3·c₁/m + 0.2·c₂/m))`, the assessment's ratio is
(the rounded) intention/negligence; and the spec's worked example — "Acme",
2 mentions, warm sums `[0.4,0.2,0.6]`, cold sums `[0.1,0,0.2]` — yields
intention 18.0, negligence 4.5, ratio 4.0 and tier "Moderate". -/
theorem claim3_scoring_formulas :
    (∀ (name : String) (e : EntityAcc), 0 < e.mention_count →
      calculateIntentionScore e =
        max (1/10) (100 * ((4/10) * (e.warm_vector_sum.1 / (e.mention_count : ℚ)) +
          (4/10) * (e.warm_vector_sum.2.1 / (e.mention_count : ℚ)) +
          (2/10) * (e.warm_vector_sum.2.2 / (e.mention_count : ℚ)))) ∧
      calculateNegligenceScore e =
        max (1/10) (100 * ((5/10) * (e.cold_vector_sum.1 / (e.mention_count : ℚ)) +
          (3/10) * (e.cold_vector_sum.2.1 / (e.mention_count : ℚ)) +
          (2/10) * (e.cold_vector_sum.2.2 / (e.mention_count : ℚ)))) ∧
      ∃ a : Assessment, calculateResponsibilityRatio name e = some a ∧
        a.ratioValue =
          round3 (calculateIntentionScore e / calculateNegligenceScore e) ∧
        a.risk_level =
          riskLevel (calculateIntentionScore e / calculateNegligenceScore e)) ∧
    calculateResponsibilityRatio "Acme" acmeAcc =
      some ⟨"Acme", 2, 18, (9/2), 4, "Moderate", ((2/10), (1/10), (3/10)), ((5/100), 0, (1/10))⟩ := by
  constructor
  · intro name e h
    have hne : e.mention_count ≠ 0 := h.ne'
    refine ⟨?_, ?_, ?_⟩
    · simp only [calculateIntentionScore, if_neg hne]
      rw [max_comm]
      congr 1
      ring
    · simp only [calculateNegligenceScore, if_neg hne]
      rw [max_comm]
      congr 1
      ring
    · simp only [calculateResponsibilityRatio, if_neg hne]
      exact ⟨_, rfl, rfl, rfl⟩
  · have hne : acmeAcc.mention_count ≠ 0 := by decide
    have hI : calculateIntentionScore acmeAcc = 18 := by
      simp only [calculateIntentionScore, acmeAcc]
      norm_num [max_def]
    have hN : calculateNegligenceScore acmeAcc = 9 / 2 := by
      simp only [calculateNegligenceScore, acmeAcc]
      norm_num [max_def]
    simp only [calculateResponsibilityRatio, if_neg hne, hI, hN,
      Option.some.injEq, Assessment.mk.injEq, Prod.mk.injEq]
    refine ⟨trivial, rfl, ?_, ?_, ?_, ?_, ⟨?_, ?_, ?_⟩, ⟨?_, ?_, ?_⟩⟩
    · exact round3_exact 18 18000 (by norm_num)
    · exact round3_exact (9 / 2) 4500 (by norm_num)
    · rw [show (18 : ℚ) / (9 / 2) = 4 by norm_num]
      exact round3_exact 4 4000 (by norm_num)
    · rw [show (18 : ℚ) / (9 / 2) = 4 by norm_num]
      norm_num [riskLevel]
    · rw [show acmeAcc.warm_vector_sum.1 / (acmeAcc.mention_count : ℚ) = 2 / 10
          from by norm_num [acmeAcc]]
      exact round3_exact _ 200 (by norm_num)
    · rw [show acmeAcc.warm_vector_sum.2.1 / (acmeAcc.mention_count : ℚ) = 1 / 10
          from by norm_num [acmeAcc]]
      exact round3_exact _ 100 (by norm_num)
    · rw [show acmeAcc.warm_vector_sum.2.2 / (acmeAcc.mention_count : ℚ) = 3 / 10
          from by norm_num [acmeAcc]]
      exact round3_exact _ 300 (by norm_num)
    · rw [show acmeAcc.cold_vector_sum.1 / (acmeAcc.mention_count : ℚ) = 5 / 100
          from by norm_num [acmeAcc]]
      exact round3_exact _ 50 (by norm_num)
    · rw [show acmeAcc.cold_vector_sum.2.1 / (acmeAcc.mention_count : ℚ) = 0
          from by norm_num [acmeAcc]]
      exact round3_exact _ 0 (by norm_num)
    · rw [show acmeAcc.cold_vector_sum.2.2 / (acmeAcc.mention_count : ℚ) = 1 / 10
          from by norm_num [acmeAcc]]
      exact round3_exact _ 100 (by norm_num)

/-- Witness for C3 at the spec's worked example. -/
theorem claim3_witness :
    0 < acmeAcc.mention_count ∧
    calculateIntentionScore acmeAcc =
      max (1/10) (100 * ((4/10) * (acmeAcc.warm_vector_sum.1 / (acmeAcc.mention_count : ℚ)) +
        (4/10) * (acmeAcc.warm_vector_sum.2.1 / (acmeAcc.mention_count : ℚ)) +
        (2/10) * (acmeAcc.warm_vector_sum.2.2 / (acmeAcc.mention_count : ℚ)))) :=
  ⟨by decide, (claim3_scoring_formulas.1 "Acme" acmeAcc (by decide)).1⟩

/-- **C2 (counterexample).** The claim quantifies over "mention count ≥ 0";
for a zero-mention entity the scorer returns intention `0.0`, which is below
the `0.1` floor, and `calculate_responsibility_ratio` raises
`ZeroDivisionError` (modelled by `none`). -/
theorem claim2_counterexample :
    calculateIntentionScore EntityAcc.init = 0 ∧
    ¬ ((1/10) ≤ calculateIntentionScore EntityAcc.init) ∧
    calculateResponsibilityRatio "Acme" EntityAcc.init = none := by
  refine ⟨rfl, ?_, rfl⟩
  rw [show calculateIntentionScore EntityAcc.init = 0 from rfl]
  norm_num

/-- **C2 (amended).** For every entity with mention count strictly greater
than 0, intention and negligence are at least 0.1, the ratio is strictly
positive (and, being a rational, finite), and the whole scoring computation
succeeds (no division by zero). -/
theorem claim2_amended_scores_floored :
    ∀ (name : String) (e : EntityAcc), 0 < e.mention_count →
      (1/10) ≤ calculateIntentionScore e ∧
      (1/10) ≤ calculateNegligenceScore e ∧
      0 < calculateIntentionScore e / calculateNegligenceScore e ∧
      (calculateResponsibilityRatio name e).isSome := by
  intro name e h
  have hne : e.mention_count ≠ 0 := h.ne'
  have hI : ((1/10) : ℚ) ≤ calculateIntentionScore e := by
    simp only [calculateIntentionScore, if_neg hne]
    exact le_max_right _ _
  have hN : ((1/10) : ℚ) ≤ calculateNegligenceScore e := by
    simp only [calculateNegligenceScore, if_neg hne]
    exact le_max_right _ _
  refine ⟨hI, hN, div_pos ?_ ?_, ?_⟩
  · linarith
  · linarith
  · simp [calculateResponsibilityRatio, hne]

/-- Witness for the amended C2 at the worked example entity. -/
theorem claim2_witness :
    0 < acmeAcc.mention_count ∧
    ((1/10) ≤ calculateIntentionScore acmeAcc ∧
     (1/10) ≤ calculateNegligenceScore acmeAcc ∧
     0 < calculateIntentionScore acmeAcc / calculateNegligenceScore acmeAcc ∧
     (calculateResponsibilityRatio "Acme" acmeAcc).isSome) :=
  ⟨by decide, claim2_amended_scores_floored "Acme" acmeAcc (by decide)⟩

/-- **C1 (code bug).** On a document whose subject "Acme" is mentioned in no
sentence, the engine holds a zero-mention accumulator for "Acme", and
`generate_responsibility_report` raises `ZeroDivisionError` (the `avg`
vector fields divide by `mention_count`), so no report is produced at all —
rather than producing a report whose `entity_assessments` exclude the
zero-mention entity while `total_entities` still counts it. -/
theorem claim1_zero_mention_crash :
    engineEntities ["Acme"] c1Sentences = [("Acme", EntityAcc.init)] ∧
    analyzeResponsibility ["Acme"] c1Sentences = none := by
  decide

/-- **C6.** For every token sequence, with `n` the number of alphabetic
tokens, `p` the positive-keyword hits and `q` the negative-keyword hits
(counted over the lowercased alphabetic tokens), the warm vector is
`[p/max(n,1), modal/max(n,1), p/max(p+q,1)]` and the cold vector is
`[q/max(n,1), riskmodal/max(n,1), q/max(p+q,1)]`, with every denominator
floored at 1. -/
theorem claim6_sentiment_vectors : ∀ tokens : List AnnToken,
    (calculateSentimentVector tokens "warm" =
      ((((tokens.filter AnnToken.is_alpha).map (fun t => pyLower t.text)).countP
          (fun w => positiveWords.contains w) : ℚ) /
        ((max ((tokens.filter AnnToken.is_alpha).length) 1 : ℕ) : ℚ),
       (((tokens.filter AnnToken.is_alpha).map (fun t => pyLower t.text)).countP
          (fun w => modalWords.contains w) : ℚ) /
        ((max ((tokens.filter AnnToken.is_alpha).length) 1 : ℕ) : ℚ),
       (((tokens.filter AnnToken.is_alpha).map (fun t => pyLower t.text)).countP
          (fun w => positiveWords.contains w) : ℚ) /
        ((max
          (((tokens.filter AnnToken.is_alpha).map (fun t => pyLower t.text)).countP
            (fun w => positiveWords.contains w) +
           ((tokens.filter AnnToken.is_alpha).map (fun t => pyLower t.text)).countP
            (fun w => negativeWords.contains w)) 1 : ℕ) : ℚ))) ∧
    (calculateSentimentVector tokens "cold" =
      ((((tokens.filter AnnToken.is_alpha).map (fun t => pyLower t.text)).countP
          (fun w => negativeWords.contains w) : ℚ) /
        ((max ((tokens.filter AnnToken.is_alpha).length) 1 : ℕ) : ℚ),
       (((tokens.filter AnnToken.is_alpha).map (fun t => pyLower t.text)).countP
          (fun w => riskModalWords.contains w) : ℚ) /
        ((max ((tokens.filter AnnToken.is_alpha).length) 1 : ℕ) : ℚ),
       (((tokens.filter AnnToken.is_alpha).map (fun t => pyLower t.text)).countP
          (fun w => negativeWords.contains w) : ℚ) /
        ((max
          (((tokens.filter AnnToken.is_alpha).map (fun t => pyLower t.text)).countP
            (fun w => positiveWords.contains w) +
           ((tokens.filter AnnToken.is_alpha).map (fun t => pyLower t.text)).countP
            (fun w => negativeWords.contains w)) 1 : ℕ) : ℚ))) := by
  intro tokens
  constructor <;>
    simp [calculateSentimentVector, List.countP_eq_length_filter,
      List.length_map]

/-! ### Claim C9: the ranked report is stably sorted by ratio, descending -/

/-- Membership in `insertDesc` is membership in the inserted element or the
list. -/
theorem mem_insertDesc {a x : Assessment} {l : List Assessment} :
    x ∈ insertDesc a l ↔ x = a ∨ x ∈ l := by
  induction l with
  | nil => simp [insertDesc]
  | cons b bs ih =>
    unfold insertDesc
    split_ifs with hc
    · simp [List.mem_cons]
    · simp only [List.mem_cons, ih]
      tauto

/-- Inserting into a descending-sorted list keeps it descending-sorted. -/
theorem pairwise_insertDesc {a : Assessment} {l : List Assessment}
    (h : l.Pairwise (fun x y => y.ratioValue ≤ x.ratioValue)) :
    (insertDesc a l).Pairwise (fun x y => y.ratioValue ≤ x.ratioValue) := by
  induction l with
  | nil => simp [insertDesc]
  | cons b bs ih =>
    rw [List.pairwise_cons] at h
    unfold insertDesc
    split_ifs with hc
    · rw [List.pairwise_cons]
      refine ⟨?_, List.pairwise_cons.mpr h⟩
      intro x hx
      rcases List.mem_cons.mp hx with hxb | hxbs
      · exact hxb ▸ hc
      · exact le_trans (h.1 x hxbs) hc
    · rw [List.pairwise_cons]
      refine ⟨?_, ih h.2⟩
      intro x hx
      rcases mem_insertDesc.mp hx with hxa | hxbs
      · exact hxa ▸ le_of_not_le hc
      · exact h.1 x hxbs

/-- The stable sort produces a descending-sorted list. -/
theorem pairwise_stableSortDesc (l : List Assessment) :
    (stableSortDesc l).Pairwise (fun x y => y.ratioValue ≤ x.ratioValue) := by
  induction l with
  | nil => simp [stableSortDesc]
  | cons a as ih => exact pairwise_insertDesc ih

/-- Sorting an already descending-sorted list is the identity. -/
theorem stableSortDesc_of_sorted {l : List Assessment}
    (h : l.Pairwise (fun x y => y.ratioValue ≤ x.ratioValue)) :
    stableSortDesc l = l := by
  induction l with
  | nil => rfl
  | cons a as ih =>
    rw [List.pairwise_cons] at h
    rw [stableSortDesc, ih h.2]
    cases as with
    | nil => rfl
    | cons b bs =>
      unfold insertDesc
      rw [if_pos (h.1 b (List.mem_cons_self b bs))]

/-- Filtering by an exact ratio value commutes with `insertDesc`: the
inserted element lands in front of the equal-ratio elements. -/
theorem filter_insertDesc (a : Assessment) (l : List Assessment) (k : ℚ) :
    (insertDesc a l).filter (fun x => decide (x.ratioValue = k)) =
      if a.ratioValue = k
      then a :: l.filter (fun x => decide (x.ratioValue = k))
      else l.filter (fun x => decide (x.ratioValue = k)) := by
  induction l with
  | nil =>
    by_cases hak : a.ratioValue = k <;> simp [insertDesc, hak]
  | cons b bs ih =>
    unfold insertDesc
    split_ifs with hc hak hak
    · simp [List.filter_cons, hak]
    · simp [List.filter_cons, hak]
    · have hbk : b.ratioValue ≠ k := fun hb => hc (le_of_eq (hb.trans hak.symm))
      simp [List.filter_cons, ih, hak, hbk]
    · simp [List.filter_cons, ih, hak]

/-- Stability: the sorted list restricted to any single ratio value is the
original list restricted to that value (ties keep encounter order). -/
theorem filter_stableSortDesc (l : List Assessment) (k : ℚ) :
    (stableSortDesc l).filter (fun x => decide (x.ratioValue = k)) =
      l.filter (fun x => decide (x.ratioValue = k)) := by
  induction l with
  | nil => rfl
  | cons a as ih =>
    rw [stableSortDesc, filter_insertDesc]
    by_cases hak : a.ratioValue = k <;> simp [List.filter_cons, hak, ih]

/-- A one-entity, one-mention engine used as a concrete witness input. -/
def unitAcc : EntityAcc := ⟨1, (0, 0, 0), (0, 0, 0)⟩

/-- The assessment the engine produces for `unitAcc`. -/
def unitAssessment : Assessment :=
  ⟨"E", 1, 1/10, 1/10, 1, "Very High", (0, 0, 0), (0, 0, 0)⟩

/-- The report the engine produces for the one-entity engine. -/
def unitReport : Report := ⟨1, 1, [unitAssessment]⟩

/-- Concrete evaluation of the scorer on `unitAcc`. -/
theorem unitRatio_eq :
    calculateResponsibilityRatio "E" unitAcc = some unitAssessment := by
  have hne : unitAcc.mention_count ≠ 0 := by decide
  have hI : calculateIntentionScore unitAcc = 1/10 := by
    simp only [calculateIntentionScore, unitAcc]
    norm_num [max_def]
  have hN : calculateNegligenceScore unitAcc = 1/10 := by
    simp only [calculateNegligenceScore, unitAcc]
    norm_num [max_def]
  simp only [calculateResponsibilityRatio, if_neg hne, hI, hN, unitAssessment,
    Option.some.injEq, Assessment.mk.injEq, Prod.mk.injEq]
  refine ⟨trivial, rfl, ?_, ?_, ?_, ?_, ⟨?_, ?_, ?_⟩, ⟨?_, ?_, ?_⟩⟩
  · exact round3_exact _ 100 (by norm_num)
  · exact round3_exact _ 100 (by norm_num)
  · rw [show (1/10 : ℚ) / (1/10) = 1 by norm_num]
    exact round3_exact _ 1000 (by norm_num)
  · rw [show (1/10 : ℚ) / (1/10) = 1 by norm_num]
    norm_num [riskLevel]
  all_goals
    · have h0 : round3 0 = 0 := round3_exact 0 0 (by norm_num)
      simp only [unitAcc]
      norm_num [h0]

/-- Concrete evaluation of report generation on the one-entity engine. -/
theorem unitReport_eq :
    generateResponsibilityReport [("E", unitAcc)] 1 = some unitReport := by
  simp only [generateResponsibilityReport, assessAll, unitRatio_eq]
  rfl

/-- **C9.** `stableSortDesc` (the model of Python's stable
`sort(key=ratio, reverse=True)`) yields a list sorted by responsibility
ratio descending, keeps equal-ratio entries in their original encounter
order (the restriction to any single ratio value is unchanged), and is
idempotent; consequently every generated report's `entity_assessments` is
descending in ratio and re-sorting it reproduces it identically. -/
theorem claim9_report_sorted_stable :
    (∀ l : List Assessment,
      (stableSortDesc l).Pairwise (fun a b => b.ratioValue ≤ a.ratioValue) ∧
      (∀ k : ℚ, (stableSortDesc l).filter (fun x => decide (x.ratioValue = k)) =
        l.filter (fun x => decide (x.ratioValue = k))) ∧
      stableSortDesc (stableSortDesc l) = stableSortDesc l) ∧
    (∀ (entities : List (String × EntityAcc)) (n : ℕ) (r : Report),
      generateResponsibilityReport entities n = some r →
      r.entity_assessments.Pairwise (fun a b => b.ratioValue ≤ a.ratioValue) ∧
      stableSortDesc r.entity_assessments = r.entity_assessments) := by
  refine ⟨fun l => ⟨pairwise_stableSortDesc l, fun k => filter_stableSortDesc l k,
    stableSortDesc_of_sorted (pairwise_stableSortDesc l)⟩, ?_⟩
  intro entities n r hr
  unfold generateResponsibilityReport at hr
  cases hAll : assessAll entities with
  | none => rw [hAll] at hr; exact absurd hr (by simp)
  | some l =>
    rw [hAll] at hr
    have hrr : r = ⟨entities.length, n, stableSortDesc l⟩ :=
      (Option.some.injEq _ _ ▸ hr).symm
    subst hrr
    exact ⟨pairwise_stableSortDesc l,
      stableSortDesc_of_sorted (pairwise_stableSortDesc l)⟩

/-- Witness for C9 on the concretely generated one-entity report. -/
theorem claim9_witness :
    generateResponsibilityReport [("E", unitAcc)] 1 = some unitReport ∧
    unitReport.entity_assessments.Pairwise
      (fun a b => b.ratioValue ≤ a.ratioValue) ∧
    stableSortDesc unitReport.entity_assessments =
      unitReport.entity_assessments :=
  ⟨unitReport_eq,
   (claim9_report_sorted_stable.2 [("E", unitAcc)] 1 unitReport unitReport_eq).1,
   (claim9_report_sorted_stable.2 [("E", unitAcc)] 1 unitReport unitReport_eq).2⟩

/-! ### Claim C7: shape of the document-level subject and phenomenon sets -/

/-- Generalized fold invariant: the dedup fold preserves duplicate-freeness
of the accumulator. -/
theorem dedupFold_nodup (l : List String) :
    ∀ acc : List String, acc.Nodup →
      (l.foldl (fun acc s => if s ∈ acc then acc else acc ++ [s]) acc).Nodup := by
  induction l with
  | nil => intro acc h; exact h
  | cons a t ih =>
    intro acc h
    simp only [List.foldl_cons]
    by_cases ha : a ∈ acc
    · rw [if_pos ha]; exact ih acc h
    · rw [if_neg ha]
      refine ih _ ?_
      simp [List.nodup_append, h, ha]

/-- `dedupFirst` yields a duplicate-free list. -/
theorem dedupFirst_nodup (l : List String) : (dedupFirst l).Nodup :=
  dedupFold_nodup l [] List.nodup_nil

/-- Generalized fold invariant for membership. -/
theorem mem_dedupFold (l : List String) :
    ∀ (acc : List String) (x : String),
      x ∈ l.foldl (fun acc s => if s ∈ acc then acc else acc ++ [s]) acc ↔
        x ∈ acc ∨ x ∈ l := by
  induction l with
  | nil => intro acc x; simp
  | cons a t ih =>
    intro acc x
    simp only [List.foldl_cons]
    by_cases ha : a ∈ acc
    · rw [if_pos ha, ih]
      constructor
      · rintro (h | h)
        · exact Or.inl h
        · exact Or.inr (List.mem_cons_of_mem a h)
      · rintro (h | h)
        · exact Or.inl h
        · rcases List.mem_cons.mp h with rfl | h
          · exact Or.inl ha
          · exact Or.inr h
    · rw [if_neg ha, ih]
      simp only [List.mem_append, List.mem_singleton, List.mem_cons]
      tauto

/-- Membership in `dedupFirst` is membership in the original list. -/
theorem mem_dedupFirst {l : List String} {x : String} :
    x ∈ dedupFirst l ↔ x ∈ l := by
  rw [dedupFirst, mem_dedupFold]
  simp

/-- A prefix of a list with no leading `p`-run has no leading `p`-run. -/
theorem dropWhile_eq_self_of_isPrefix (p : Char → Bool) :
    ∀ l m : List Char, l <+: m → m.dropWhile p = m → l.dropWhile p = l := by
  intro l m hpre hm
  cases l with
  | nil => rfl
  | cons a t =>
    rcases hpre with ⟨r, hr⟩
    subst hr
    simp only [List.cons_append] at hm
    rw [List.dropWhile_cons] at hm ⊢
    split_ifs with h
    · rw [if_pos h] at hm
      have hlen := (List.dropWhile_suffix p (l := t ++ r)).length_le
      rw [hm] at hlen
      simp only [List.length_cons] at hlen
      omega
    · rfl

/-- The two-sided strip is idempotent at the character-list level. -/
theorem stripL_idem (l : List Char) :
    ((((((l.dropWhile isWS).reverse.dropWhile isWS).reverse).dropWhile
        isWS).reverse).dropWhile isWS).reverse =
      ((l.dropWhile isWS).reverse.dropWhile isWS).reverse := by
  set A := l.dropWhile isWS with hA
  have hAself : A.dropWhile isWS = A := by rw [hA]; exact List.dropWhile_idempotent _ _
  set C := A.reverse.dropWhile isWS with hC
  have hCself : C.dropWhile isWS = C := by rw [hC]; exact List.dropWhile_idempotent _ _
  have hBpre : C.reverse <+: A := by
    have hsuf : C <:+ A.reverse := List.dropWhile_suffix isWS
    rcases hsuf with ⟨r, hr⟩
    refine ⟨r.reverse, ?_⟩
    rw [← List.reverse_append, hr, List.reverse_reverse]
  have hBself : C.reverse.dropWhile isWS = C.reverse :=
    dropWhile_eq_self_of_isPrefix isWS C.reverse A hBpre hAself
  rw [hBself, List.reverse_reverse, hCself]

/-- `pyStrip` is idempotent. -/
theorem pyStrip_idem (s : String) : pyStrip (pyStrip s) = pyStrip s :=
  congrArg String.mk (stripL_idem s.toList)

/-- **C7 (counterexample).** The claim asserts every subject string has
trimmed length > 2, but `_extract_subjects` applies no length filter to the
NER branch: a two-character named entity such as "EU" (type GPE) becomes a
subject of trimmed length 2. -/
theorem claim7_counterexample :
    "EU" ∈ docSubjects [⟨[], [⟨"EU", "GPE"⟩], [], "EU is large."⟩] ∧
    ¬ (2 < (pyStrip "EU").length) := by
  constructor
  · decide
  · decide

/-- **C7 (amended).** Every string in the `phen` set has trimmed length
strictly greater than 2 (and is already trimmed), and both `phen` and
`subjects` are duplicate-free; the length invariant does *not* extend to
`subjects`, whose NER and noun-chunk branches are unfiltered. -/
theorem claim7_amended_phen_trimmed_nodup :
    (∀ subjects concepts relations : List String,
      (∀ p ∈ extractPhenomena subjects concepts relations,
        2 < (pyStrip p).length ∧ pyStrip p = p) ∧
      (extractPhenomena subjects concepts relations).Nodup) ∧
    (∀ sents : List AnnSentence,
      (docSubjects sents).Nodup ∧ (docPhen sents).Nodup ∧
      ∀ p ∈ docPhen sents, 2 < (pyStrip p).length) := by
  have hphen : ∀ subjects concepts relations : List String,
      (∀ p ∈ extractPhenomena subjects concepts relations,
        2 < (pyStrip p).length ∧ pyStrip p = p) ∧
      (extractPhenomena subjects concepts relations).Nodup := by
    intro subjects concepts relations
    constructor
    · intro p hp
      rw [extractPhenomena, mem_dedupFirst] at hp
      rcases List.mem_map.mp hp with ⟨q, hq, rfl⟩
      have hflt := List.of_mem_filter hq
      have hlen : 2 < (pyStrip q).length := by
        have := (Bool.and_eq_true _ _).mp hflt
        exact of_decide_eq_true this.2
      exact ⟨by rw [pyStrip_idem]; exact hlen, pyStrip_idem q⟩
    · exact dedupFirst_nodup _
  refine ⟨hphen, ?_⟩
  intro sents
  refine ⟨dedupFirst_nodup _, (hphen _ _ _).2, fun p hp => ((hphen _ _ _).1 p hp).1⟩

/-! ### Claim C10: empty concept windows crash candidate selection -/

/-- A sentence consisting of one non-relational semantic prime and one
punctuation token: "Good!". -/
def goodSentence : AnnSentence :=
  ⟨[⟨"Good", "ADJ", true⟩, ⟨"!", "PUNCT", false⟩], [], [], "Good!"⟩

/-- **C10.** Concept-window extraction can return the empty string — here
the window around the prime "good" in "Good!" contains only the prime and a
punctuation token — and that empty string flows into
`_extract_wiki_candidates`, whose unguarded `entity[0].isupper()` raises
`IndexError` (modelled by `none`), so `process_text` fails for this input
instead of returning a bounded candidate list. -/
theorem claim10_empty_candidate_crash :
    extractConceptWindow goodSentence.tokens 0 = "" ∧
    (extractConceptsAndRelations goodSentence).1 = [""] ∧
    wikiQualifies "" = none ∧
    processText [goodSentence] = none := by
  refine ⟨by decide, by decide, rfl, ?_⟩
  have hw : extractWikiCandidates
      (docAllSubjects [goodSentence] ++ docAllConcepts [goodSentence]) = none := by
    decide
  simp only [processText, hw]

/-! ### Claim C5: mention detection and per-sentence accumulation -/

/-- The prefix test agrees with `List.IsPrefix`. -/
theorem isPrefixZ_iff (n : List Char) : ∀ h : List Char,
    isPrefixZ n h = true ↔ n <+: h := by
  induction n with
  | nil => intro h; simp [isPrefixZ]
  | cons a t ih =>
    intro h
    cases h with
    | nil => simp [isPrefixZ]
    | cons b hs => simp [isPrefixZ, List.cons_prefix_cons, ih, Bool.and_eq_true]

/-- The substring test agrees with `List.IsInfix`: Python `n in h` holds
exactly when `n` is a contiguous substring of `h`. -/
theorem subList_iff (n : List Char) : ∀ h : List Char,
    subList n h = true ↔ n <:+: h := by
  intro h
  induction h with
  | nil => simp [subList, List.isEmpty_iff]
  | cons b bs ih =>
    rw [subList, List.infix_cons_iff]
    simp [Bool.or_eq_true, isPrefixZ_iff, ih]

/-- The engine's mention test is exactly lowercase substring containment. -/
theorem mentionedB_eq (e s : String) :
    mentionedB e s = decide ((pyLower e).toList <:+: (pyLower s).toList) := by
  have h := subList_iff (pyLower e).toList (pyLower s).toList
  by_cases hm : (pyLower e).toList <:+: (pyLower s).toList
  · simp only [mentionedB, strIn]
    rw [h.mpr hm]
    exact (decide_eq_true hm).symm
  · have hfalse : subList (pyLower e).toList (pyLower s).toList = false :=
      Bool.eq_false_iff.mpr fun hc => hm (h.mp hc)
    simp only [mentionedB, strIn]
    rw [hfalse]
    exact (decide_eq_false hm).symm

/-- Entities not in the mentioned list are untouched by the per-sentence
update fold. -/
theorem foldl_bump_of_not_mem {s : SentenceRec} {e : String} :
    ∀ (l : List String) (acc : String → EntityAcc), e ∉ l →
      (l.foldl (fun a name => Function.update a name ((a name).bump s)) acc) e
        = acc e := by
  intro l
  induction l with
  | nil => intro acc _; rfl
  | cons n t ih =>
    intro acc he
    simp only [List.foldl_cons]
    rw [ih _ (fun hc => he (List.mem_cons_of_mem n hc)),
      Function.update_noteq
        (fun hc => he (by rw [hc]; exact List.mem_cons_self n t)) _ acc]

/-- An entity occurring exactly once in the mentioned list is bumped exactly
once by the per-sentence update fold. -/
theorem foldl_bump_of_mem {s : SentenceRec} {e : String} :
    ∀ (l : List String) (acc : String → EntityAcc), l.Nodup → e ∈ l →
      (l.foldl (fun a name => Function.update a name ((a name).bump s)) acc) e
        = (acc e).bump s := by
  intro l
  induction l with
  | nil => intro acc _ he; exact absurd he (List.not_mem_nil e)
  | cons n t ih =>
    intro acc hnd he
    simp only [List.foldl_cons]
    rcases List.mem_cons.mp he with rfl | het
    · have hnt : e ∉ t := (List.nodup_cons.mp hnd).1
      rw [foldl_bump_of_not_mem t _ hnt, Function.update_same]
    · have hne : e ≠ n := fun hc =>
        (List.nodup_cons.mp hnd).1 (hc ▸ het)
      rw [ih _ (List.nodup_cons.mp hnd).2 het,
        Function.update_noteq hne _ acc]

/-- Pointwise view of the sentence loop: the accumulator of entity `e` is a
fold over the sentences that bumps exactly when the sentence mentions `e`. -/
theorem extractEntities_pointwise {subjects : List String} {e : String}
    (hnd : subjects.Nodup) (he : e ∈ subjects) :
    ∀ (sentences : List SentenceRec) (acc : String → EntityAcc),
      (sentences.foldl (processSentence subjects) acc) e =
        sentences.foldl
          (fun st sr => if mentionedB e sr.sentence then st.bump sr else st)
          (acc e) := by
  intro sentences
  induction sentences with
  | nil => intro acc; rfl
  | cons sr rest ih =>
    intro acc
    simp only [List.foldl_cons]
    rw [ih]
    congr 1
    unfold processSentence mentionedEntities
    by_cases hm : mentionedB e sr.sentence
    · rw [if_pos hm]
      exact foldl_bump_of_mem _ acc (hnd.filter _)
        (List.mem_filter.mpr ⟨he, hm⟩)
    · rw [if_neg hm]
      exact foldl_bump_of_not_mem _ acc
        (fun hc => hm (by simpa using List.of_mem_filter hc))

/-- Closed form of the scalar bump fold: the final count adds the number of
mentioning sentences, the vector sums add the element-wise sums of their
warm/cold vectors. -/
theorem bumpFold_closed {e : String} :
    ∀ (sentences : List SentenceRec) (st : EntityAcc),
      sentences.foldl
          (fun st sr => if mentionedB e sr.sentence then st.bump sr else st)
          st =
        ⟨st.mention_count +
            (sentences.filter (fun sr => mentionedB e sr.sentence)).length,
          st.warm_vector_sum +
            ((sentences.filter (fun sr => mentionedB e sr.sentence)).map
              (fun sr => sr.warm_vector)).sum,
          st.cold_vector_sum +
            ((sentences.filter (fun sr => mentionedB e sr.sentence)).map
              (fun sr => sr.cold_vector)).sum⟩ := by
  intro sentences
  induction sentences with
  | nil =>
    intro st
    simp only [List.foldl_nil, List.filter_nil, List.length_nil, List.map_nil,
      List.sum_nil, Nat.add_zero, add_zero]
  | cons sr rest ih =>
    intro st
    simp only [List.foldl_cons, List.filter_cons]
    by_cases hm : mentionedB e sr.sentence
    · simp only [hm, eq_self_iff_true, if_true]
      rw [ih]
      simp only [EntityAcc.bump, List.length_cons, List.map_cons,
        List.sum_cons, EntityAcc.mk.injEq]
      refine ⟨by omega, ?_, ?_⟩ <;> exact add_assoc _ _ _
    · have hm2 : mentionedB e sr.sentence = false := Bool.eq_false_iff.mpr hm
      simp only [hm2, Bool.false_eq_true, if_false, ih]

/-- **C5.** For every subject set (duplicate-free, as produced by
`list(set(...))`) and every scanned sentence, an entity is counted as
mentioned exactly when its lowercase form is a substring of the sentence's
lowercase form (no word-boundary check); its final mention count is the
number of mentioning sentences (one increment per sentence) and its warm and
cold sums are the element-wise sums of those sentences' vectors. -/
theorem claim5_mention_aggregation :
    ∀ (subjects : List String) (sentences : List SentenceRec) (e : String),
      subjects.Nodup → e ∈ subjects →
      (∀ sr : SentenceRec,
        e ∈ mentionedEntities subjects sr.sentence ↔
          (pyLower e).toList <:+: (pyLower sr.sentence).toList) ∧
      (extractEntities subjects sentences e).mention_count =
        (sentences.filter (fun sr =>
          decide ((pyLower e).toList <:+: (pyLower sr.sentence).toList))).length ∧
      (extractEntities subjects sentences e).warm_vector_sum =
        ((sentences.filter (fun sr =>
          decide ((pyLower e).toList <:+: (pyLower sr.sentence).toList))).map
            (fun sr => sr.warm_vector)).sum ∧
      (extractEntities subjects sentences e).cold_vector_sum =
        ((sentences.filter (fun sr =>
          decide ((pyLower e).toList <:+: (pyLower sr.sentence).toList))).map
            (fun sr => sr.cold_vector)).sum := by
  intro subjects sentences e hnd he
  have hpred : (fun sr : SentenceRec =>
      decide ((pyLower e).toList <:+: (pyLower sr.sentence).toList)) =
      (fun sr : SentenceRec => mentionedB e sr.sentence) :=
    funext fun sr => (mentionedB_eq e sr.sentence).symm
  have hext : extractEntities subjects sentences e =
      ⟨EntityAcc.init.mention_count +
          (sentences.filter (fun sr => mentionedB e sr.sentence)).length,
        EntityAcc.init.warm_vector_sum +
          ((sentences.filter (fun sr => mentionedB e sr.sentence)).map
            (fun sr => sr.warm_vector)).sum,
        EntityAcc.init.cold_vector_sum +
          ((sentences.filter (fun sr => mentionedB e sr.sentence)).map
            (fun sr => sr.cold_vector)).sum⟩ := by
    unfold extractEntities
    rw [extractEntities_pointwise hnd he, bumpFold_closed]
  refine ⟨?_, ?_, ?_, ?_⟩
  · intro sr
    unfold mentionedEntities
    rw [List.mem_filter]
    constructor
    · intro h
      exact (subList_iff _ _).mp h.2
    · intro hin
      exact ⟨he, (subList_iff _ _).mpr hin⟩
  all_goals
    rw [hpred, hext]
    simp [EntityAcc.init, Prod.ext_iff]

/-- Two concrete sentences for the C5 witness: the first mentions "Acme",
the second does not. -/
def demoSentences : List SentenceRec :=
  [⟨"Acme grew fast.", (1, 0, 0), (0, 0, 0)⟩,
   ⟨"Nothing here.", (0, 1, 0), (0, 0, 1)⟩]

/-- Witness for C5 on the concrete two-sentence document. -/
theorem claim5_witness :
    (["Acme"] : List String).Nodup ∧ "Acme" ∈ (["Acme"] : List String) ∧
    (extractEntities ["Acme"] demoSentences "Acme").mention_count =
      (demoSentences.filter (fun sr =>
        decide ((pyLower "Acme").toList <:+:
          (pyLower sr.sentence).toList))).length :=
  ⟨by decide, by decide,
   (claim5_mention_aggregation ["Acme"] demoSentences "Acme" (by decide)
     (by decide)).2.1⟩

/-! ### Claim C8: the prime matcher scans left to right without overlaps -/

/-- Every candidate phrase length tried by the scanner is at least 1. -/
theorem tryLens_pos {n i l : ℕ} (h : l ∈ tryLens n i) : 1 ≤ l := by
  unfold tryLens at h
  rcases List.mem_map.mp h with ⟨k, _, rfl⟩
  omega

/-- A successful multi-word lookup returns a span of at least one token. -/
theorem multiMatch_pos {texts : List String} {i l : ℕ}
    (h : multiMatch texts i = some l) : 1 ≤ l :=
  tryLens_pos (List.mem_of_find?_eq_some h)

/-- Scan invariant: every recorded match lies at or after the scan start and
spans at least one token. -/
theorem findPrimesAux_ge (texts : List String) :
    ∀ fuel i : ℕ, ∀ m ∈ findPrimesAux texts fuel i, i ≤ m.1 ∧ 1 ≤ m.2.1 := by
  intro fuel
  induction fuel with
  | zero => intro i m hm; simp [findPrimesAux] at hm
  | succ f ih =>
    intro i m hm
    simp only [findPrimesAux] at hm
    split at hm
    · split at hm
      · rename_i l heq
        rcases List.mem_cons.mp hm with rfl | hmr
        · exact ⟨le_refl _, multiMatch_pos heq⟩
        · have hb := ih (i + l) m hmr
          have hl := multiMatch_pos heq
          exact ⟨by omega, hb.2⟩
      · split at hm
        · rcases List.mem_cons.mp hm with rfl | hmr
          · exact ⟨le_refl _, le_refl _⟩
          · have hb := ih (i + 1) m hmr
            exact ⟨by omega, hb.2⟩
        · have hb := ih (i + 1) m hm
          exact ⟨by omega, hb.2⟩
    · exact absurd hm (List.not_mem_nil m)

/-- Scan invariant: the recorded matches are in strictly increasing
position order and consecutive spans do not overlap (`pos + span ≤ next
pos`). -/
theorem findPrimesAux_pairwise (texts : List String) :
    ∀ fuel i : ℕ,
      (findPrimesAux texts fuel i).Pairwise
        (fun a b => a.1 + a.2.1 ≤ b.1) := by
  intro fuel
  induction fuel with
  | zero => intro i; simp [findPrimesAux]
  | succ f ih =>
    intro i
    simp only [findPrimesAux]
    split
    · split
      · rename_i l heq
        rw [List.pairwise_cons]
        exact ⟨fun m hm => (findPrimesAux_ge texts f (i + l) m hm).1, ih (i + l)⟩
      · split
        · rw [List.pairwise_cons]
          exact ⟨fun m hm => (findPrimesAux_ge texts f (i + 1) m hm).1,
            ih (i + 1)⟩
        · exact ih (i + 1)
    · exact List.Pairwise.nil

/-- **C8.** The matcher's output (position, text) list is the projection of
the instrumented scan; the recorded spans are pairwise non-overlapping
(`pos + span ≤ next pos`), every span has length ≥ 1, and consequently the
match list is strictly ordered by position. -/
theorem claim8_prime_matcher_ordered :
    ∀ texts : List String,
      findSemanticPrimes texts =
        (findPrimesAux texts texts.length 0).map (fun m => (m.1, m.2.2)) ∧
      (findPrimesAux texts texts.length 0).Pairwise
        (fun a b => a.1 + a.2.1 ≤ b.1) ∧
      (∀ m ∈ findPrimesAux texts texts.length 0, 1 ≤ m.2.1) ∧
      (findSemanticPrimes texts).Pairwise (fun a b => a.1 < b.1) := by
  intro texts
  refine ⟨rfl, findPrimesAux_pairwise texts _ 0,
    fun m hm => (findPrimesAux_ge texts _ 0 m hm).2, ?_⟩
  rw [findSemanticPrimes, List.pairwise_map]
  refine (findPrimesAux_pairwise texts _ 0).imp_of_mem ?_
  intro a b ha _ hr
  have hspan := (findPrimesAux_ge texts _ 0 a ha).2
  simp only []
  omega

/-- Witness for C8 on the token list `["The", "same", "words"]`: the scanner
finds the two-word prime "the same" at position 0 and the single-word prime
"words" at position 2, and the recorded spans obey the theorem. -/
theorem claim8_witness :
    findSemanticPrimes ["The", "same", "words"] =
      [(0, "the same"), (2, "words")] ∧
    (0, 2, "the same") ∈
      findPrimesAux ["The", "same", "words"] 3 0 ∧
    1 ≤ ((0, 2, "the same") : ℕ × ℕ × String).2.1 :=
  ⟨by decide, by decide,
   (claim8_prime_matcher_ordered ["The", "same", "words"]).2.2.1
     (0, 2, "the same") (by decide)⟩

/-- Exhausted scan: past the end of the token list nothing is recorded,
whatever the fuel. -/
theorem findPrimesAux_stop (texts : List String) :
    ∀ (fuel i : ℕ), ¬ i < texts.length → findPrimesAux texts fuel i = [] := by
  intro fuel i h
  cases fuel with
  | zero => rfl
  | succ f =>
    simp only [findPrimesAux]
    rw [dif_neg h]

/-- The fuel argument of the scan is irrelevant once it covers the remaining
tokens, so `findSemanticPrimes`' choice `fuel = texts.length` computes the
untruncated scan of the source. -/
theorem findPrimesAux_fuel_irrelevant (texts : List String) :
    ∀ (fuel fuel' i : ℕ), texts.length - i ≤ fuel → texts.length - i ≤ fuel' →
      findPrimesAux texts fuel i = findPrimesAux texts fuel' i := by
  intro fuel
  induction fuel with
  | zero =>
    intro fuel' i h h'
    have hge : ¬ i < texts.length := by omega
    rw [findPrimesAux_stop texts 0 i hge, findPrimesAux_stop texts fuel' i hge]
  | succ f ih =>
    intro fuel' i h h'
    by_cases hlen : i < texts.length
    · obtain ⟨f', rfl⟩ : ∃ f', fuel' = f' + 1 := by
        cases fuel' with
        | zero => exact absurd hlen (by omega)
        | succ k => exact ⟨k, rfl⟩
      simp only [findPrimesAux]
      rw [dif_pos hlen, dif_pos hlen]
      cases heq : multiMatch texts i with
      | some l =>
        have hl := multiMatch_pos heq
        dsimp only
        rw [ih f' (i + l) (by omega) (by omega)]
      | none =>
        dsimp only
        by_cases hw : primeSingles.contains (pyLower (texts.get ⟨i, hlen⟩))
        · rw [if_pos hw, if_pos hw, ih f' (i + 1) (by omega) (by omega)]
        · rw [if_neg hw, if_neg hw, ih f' (i + 1) (by omega) (by omega)]
    · rw [findPrimesAux_stop texts _ i hlen, findPrimesAux_stop texts _ i hlen]
